import Mathlib

/-!
Verification of the IntelliDoc PDF chat application (`app.py`).

The definitions below are a shallow embedding of the program: the pure text
processing functions (`get_pdf_text_and_metadata`, `get_text_chunks` with the
`CharacterTextSplitter` it configures) are translated directly, and the
Streamlit session logic of `main` is modelled as a state machine over the
session state (`conversation`, `chat_history`).  External services (the
embedding model, the chat model, the vector store) are abstract parameters.
-/

namespace IntelliDoc

/-- The apostrophe character, used to build string literals faithfully. -/
def apostrophe : Char := Char.ofNat 39

/-- The initial system greeting placed in `chat_history` (app.py lines 89-91,
and again on Clear Chat History, lines 111-113). -/
def greeting : String :=
  "Hello! I" ++ String.mk [apostrophe] ++ "m IntelliDoc. Upload your documents to get started."

/-- The warning shown when a question is asked before documents are processed
(app.py line 164). -/
def notReadyMessage : String := "Please upload and process your documents first."

/-- A langchain `Document`: page content plus the metadata fields this program
uses (`source`, `page`), app.py lines 22-25. -/
structure Document where
  page_content : String
  source : String
  page : Nat
deriving DecidableEq

/-- An uploaded PDF as the text extractor sees it: a file name and the text
`page.extract_text()` yields for each page, in order. -/
structure PdfFile where
  name : String
  pages : List String
deriving DecidableEq

/-- Inner loop of `get_pdf_text_and_metadata` (app.py lines 19-25): enumerate
the pages of one file from `page_num`; a page is kept only when its extracted
text is truthy (a nonempty string), and is tagged with page `page_num + 1`. -/
def extract_pdf_pages (name : String) : List String → Nat → List Document
  | [], _ => []
  | text :: rest, page_num =>
    (if text = "" then [] else
      [{ page_content := text, source := name, page := page_num + 1 }])
      ++ extract_pdf_pages name rest (page_num + 1)

/-- `get_pdf_text_and_metadata` (app.py lines 14-26): one accumulated list of
page records over all uploaded files. -/
def get_pdf_text_and_metadata (pdf_docs : List PdfFile) : List Document :=
  pdf_docs.flatMap fun pdf => extract_pdf_pages pdf.name pdf.pages 0

/-! ### Chunker

`get_text_chunks` (app.py lines 29-38) configures langchain's
`CharacterTextSplitter` with `separator="\n"`, `chunk_size=1000`,
`chunk_overlap=200`, `length_function=len`.  The splitter's `split_text`
splits the text on the separator, drops empty pieces, and merges the pieces
with `TextSplitter._merge_splits`; `split_documents` applies this to each
document's `page_content`, copying the metadata onto every chunk. -/

/-- `chunk_size=1000` (app.py line 33). -/
def chunk_size : Int := 1000

/-- `chunk_overlap=200` (app.py line 34). -/
def chunk_overlap : Int := 200

/-- `len` of a string as a Python `int` (Python `len` counts code points,
as does `String.length`). -/
def strLen (s : String) : Int := (s.length : Int)

/-- `separator_len if len(current_doc) > 0 else 0` with separator `"\n"`
(whose length is 1). -/
def sepLenOf (current : List String) : Int := if current = [] then 0 else 1

/-- The newline character, the configured `separator` (app.py line 32). -/
def nl : Char := Char.ofNat 10

/-- `re.split` on a single literal character: split a character list at every
occurrence of `sep`, keeping empty pieces (they are filtered afterwards, as in
`_split_text_with_regex`). -/
def splitCharList (sep : Char) : List Char → List (List Char)
  | [] => [[]]
  | c :: cs =>
    if c = sep then [] :: splitCharList sep cs
    else (c :: (splitCharList sep cs).headD []) :: (splitCharList sep cs).tail

/-- Python whitespace for `str.strip()` (the ASCII whitespace characters:
space, tab, newline, carriage return, vertical tab, form feed). -/
def pyWhitespace (c : Char) : Bool :=
  c == ' ' || c == Char.ofNat 9 || c == Char.ofNat 10 || c == Char.ofNat 13
    || c == Char.ofNat 11 || c == Char.ofNat 12

/-- `str.strip()` on a character list: drop whitespace from both ends. -/
def pyStripList (cs : List Char) : List Char :=
  ((cs.dropWhile pyWhitespace).reverse.dropWhile pyWhitespace).reverse

/-- Python `str.strip()`. -/
def pyStrip (s : String) : String := String.mk (pyStripList s.data)

/-- Python `separator.join(docs)`. -/
def joinSep (sep : String) : List String → String
  | [] => ""
  | [d] => d
  | d :: ds => d ++ sep ++ joinSep sep ds

/-- `TextSplitter._join_docs` with separator `"\n"` and the default
`strip_whitespace=True`: join, strip, and return `none` for the empty
string. -/
def joinDocs (current : List String) : Option String :=
  if pyStrip (joinSep "\n" current) = "" then none
  else some (pyStrip (joinSep "\n" current))

/-- The length bookkeeping of `_merge_splits`: `total` equals the length of
the separator-joined `current_doc`. -/
def totalOf : List String → Int
  | [] => 0
  | d :: ds => strLen d + sepLenOf ds + totalOf ds

/-- The inner `while` loop of `_merge_splits`: keep popping the front of
`current_doc` while `total > chunk_overlap` or the incoming split of length
`dLen` would still overflow `chunk_size` with `total > 0`. -/
def popSplits (dLen : Int) : List String → Int → List String × Int
  | [], total => ([], total)
  | d0 :: rest, total =>
    if chunk_overlap < total ∨
        (chunk_size < total + dLen + sepLenOf (d0 :: rest) ∧ 0 < total) then
      popSplits dLen rest (total - (strLen d0 + sepLenOf rest))
    else (d0 :: rest, total)

/-- The main loop of `TextSplitter._merge_splits` over the splits: when an
incoming split would overflow `chunk_size`, the current document is emitted
(if nonempty) and its front popped back to at most `chunk_overlap` carried
characters; the split is then appended to the current document. -/
def mergeGo : List String → List String → List String → Int → List String
  | [], docs, current, _total =>
    (match joinDocs current with
     | some doc => docs ++ [doc]
     | none => docs)
  | d :: ds, docs, current, total =>
    if chunk_size < total + strLen d + sepLenOf current then
      if current = [] then
        mergeGo ds docs [d] (total + strLen d)
      else
        mergeGo ds
          (match joinDocs current with
           | some doc => docs ++ [doc]
           | none => docs)
          ((popSplits (strLen d) current total).1 ++ [d])
          ((popSplits (strLen d) current total).2 + strLen d
            + sepLenOf (popSplits (strLen d) current total).1)
    else
      mergeGo ds docs (current ++ [d]) (total + strLen d + sepLenOf current)

/-- `CharacterTextSplitter.split_text` as configured in `get_text_chunks`:
split on `"\n"`, drop empty pieces, merge. -/
def split_text (text : String) : List String :=
  mergeGo (((splitCharList nl text.data).map
    (fun cs => String.mk cs)).filter (fun s => s ≠ "")) [] [] 0

/-- `get_text_chunks` (app.py lines 29-38) via
`CharacterTextSplitter.split_documents`: each document's page content is
split and every chunk carries a copy of the document's metadata. -/
def get_text_chunks (documents : List Document) : List Document :=
  documents.flatMap fun doc =>
    (split_text doc.page_content).map fun c => { doc with page_content := c }

/-! ### Conversation state and the main loop -/

/-- One entry of `st.session_state.chat_history`: the initial
`SystemMessage`, a `("human", text)` tuple, or an `("ai", text, sources)`
tuple whose third component holds source documents (app.py lines 89-91,
134-145, 160-161). -/
inductive Turn
  | system (content : String)
  | human (content : String)
  | ai (content : String) (sources : List Document)
deriving DecidableEq

/-- Is the turn the `SystemMessage` variant? -/
def isSystemTurn : Turn → Bool
  | Turn.system _ => true
  | _ => false

/-- The deduplicated `(source, page)` pairs of a list of documents, as the
rendering code deduplicates citations with a `set` (app.py line 143). -/
def dedupSources (docs : List Document) : List (String × Nat) :=
  (docs.map fun d => (d.source, d.page)).dedup

/-- The outcome of running the RAG chain's stream to completion for one
question: either the full list of answer fragments together with the context
documents the chain retrieved, or a failure after emitting some fragments
(the exception propagates out of `st.write_stream`). -/
inductive ChainOutcome
  | ok (fragments : List String) (context : List Document)
  | failed (emitted : List String)

/-- The conversation chain stored in `st.session_state.conversation`: invoked
with the chat history and the question (app.py lines 154-157). -/
def RagChain : Type := List Turn → String → ChainOutcome

/-- What the question-handling code surfaces to the user for one submitted
question. -/
inductive Outcome
  | answered (response : String)
  | generationError
  | notReady (msg : String)
  | processed
  | noPdfsWarning

/-- The Streamlit session state: `conversation` and `chat_history`
(app.py lines 86-91). -/
structure AppState where
  conversation : Option RagChain
  chat_history : List Turn

/-- The initial session state (app.py lines 86-91). -/
def initState : AppState :=
  { conversation := none, chat_history := [Turn.system greeting] }

/-- The Process button (app.py lines 99-108): with at least one uploaded PDF
it builds the chain (the build from the pdfs through the external embedding
model is abstracted as `chain`) and stores it in `conversation`; otherwise it
only warns.  `chat_history` is not touched. -/
def processDocs (chain : RagChain) (pdf_docs : List PdfFile) (s : AppState) :
    AppState × Outcome :=
  if pdf_docs = [] then (s, Outcome.noPdfsWarning)
  else ({ s with conversation := some chain }, Outcome.processed)

/-- The Clear Chat History button (app.py lines 110-114): `chat_history` is
replaced by the single greeting; `conversation` is untouched. -/
def clearHistory (s : AppState) : AppState :=
  { s with chat_history := [Turn.system greeting] }

/-- Submitting a question (app.py lines 148-164).  With no conversation the
warning is shown and nothing else happens.  Otherwise the chain's stream is
consumed by `st.write_stream`; only if it completes are the human turn and the
AI turn appended — and the AI turn is appended as `("ai", response, [])`, with
an empty source list (line 161).  If the stream raises, the appends on lines
160-161 never execute and the session state is unchanged. -/
def submitQuestion (s : AppState) (q : String) : AppState × Outcome :=
  match s.conversation with
  | none => (s, Outcome.notReady notReadyMessage)
  | some chain =>
    match chain s.chat_history q with
    | ChainOutcome.ok fragments _context =>
      ({ s with chat_history :=
          s.chat_history ++ [Turn.human q, Turn.ai (String.join fragments) []] },
        Outcome.answered (String.join fragments))
    | ChainOutcome.failed _emitted => (s, Outcome.generationError)

/-- The session states reachable by the app's operations from the initial
state. -/
inductive Reachable : AppState → Prop
  | init : Reachable initState
  | process (s : AppState) (ch : RagChain) (pdfs : List PdfFile) :
      Reachable s → Reachable (processDocs ch pdfs s).1
  | clear (s : AppState) : Reachable s → Reachable (clearHistory s)
  | submit (s : AppState) (q : String) :
      Reachable s → Reachable (submitQuestion s q).1

/-! ### The retrieval chain internals

`get_conversation_rag_chain` (app.py lines 48-78) wires langchain's
`create_history_aware_retriever` and `create_retrieval_chain` with
`create_stuff_documents_chain`.  Their data flow is modelled here. -/

/-- The query used for retrieval, from langchain's
`create_history_aware_retriever`: a `RunnableBranch` whose condition is the
truthiness of `chat_history` — with an empty history the raw `input` goes
straight to the retriever with no model call; with a nonempty history the
rewriting prompt/model runs and its output string is the query.  The returned
Bool records whether the rewriting model was invoked. -/
def retrieval_query (rewriteLLM : List Turn → String → String)
    (chat_history : List Turn) (input : String) : String × Bool :=
  match chat_history with
  | [] => (input, false)
  | _ :: _ => (rewriteLLM chat_history input, true)

/-- A prompt message for the answering model. -/
inductive Msg
  | system (content : String)
  | human (content : String)
deriving DecidableEq

/-- The content of a human prompt message, if it is one. -/
def humanContent : Msg → Option String
  | Msg.human s => some s
  | _ => none

/-- The human messages of a prompt. -/
def humanTexts (ms : List Msg) : List String := ms.filterMap humanContent

/-- The fixed part of `qa_system_prompt` (app.py lines 66-69), before the
`{context}` slot. -/
def qa_system_base : String :=
  "You are an assistant for question-answering tasks. Use the following pieces of retrieved context to answer the question. If you don"
    ++ String.mk [apostrophe] ++ "t know the answer, just say that you don"
    ++ String.mk [apostrophe] ++ "t know. Be concise and helpful."

/-- The `qa_system_prompt` with the `{context}` slot filled. -/
def qa_prompt_system (context : String) : String :=
  qa_system_base ++ "\n\n" ++ context

/-- `create_stuff_documents_chain`'s document formatting: each document
rendered by the default `"{page_content}"` prompt, joined by the default
`"\n\n"` separator. -/
def format_docs (docs : List Document) : String :=
  joinSep "\n\n" (docs.map fun d => d.page_content)

/-- One invocation of the retrieval chain, with its intermediate values. -/
structure RagTrace where
  rewritten_query : String
  context : List Document
  prompt : List Msg
  answer : String

/-- `create_retrieval_chain(history_aware_retriever, question_answer_chain)`
(app.py line 77): the rewritten query (from `retrieval_query`) is used only to
retrieve the context documents; `create_stuff_documents_chain` then builds the
answering prompt from `qa_prompt` (app.py lines 71-74) — the system message
with the formatted context substituted for `{context}`, and the human message
`{input}` filled with the ORIGINAL input of the invocation, not the rewritten
query. -/
def create_retrieval_chain_run (rewriteLLM : List Turn → String → String)
    (retriever : String → List Document) (answerLLM : List Msg → String)
    (chat_history : List Turn) (input : String) : RagTrace :=
  let rq := retrieval_query rewriteLLM chat_history input
  let docs := retriever rq.1
  let prompt := [Msg.system (qa_prompt_system (format_docs docs)), Msg.human input]
  { rewritten_query := rq.1, context := docs, prompt := prompt,
    answer := answerLLM prompt }

/-! ### Concrete inputs used to evaluate the model -/

/-- A sample question. -/
def qWhat : String := "What is X?"

/-- A sample question for a turn with citations available. -/
def qPage : String := "What does page 1 say?"

/-- A sample output of the rewriting model. -/
def rewrittenQ : String := "Standalone question about X"

/-- A rewriting model that always returns `rewrittenQ`. -/
def frew : List Turn → String → String := fun _ _ => rewrittenQ

/-- A sample source file name. -/
def manualName : String := "manual.pdf"

/-- A sample uploaded file name. -/
def docName : String := "doc.pdf"

/-- Sample page texts. -/
def aPage : String := "a"

/-- Sample page texts. -/
def cPage : String := "c"

/-- A whitespace-only, nonempty page text. -/
def wsOnly : String := "   "

/-- A PDF with a single whitespace-only page. -/
def wsPdf : PdfFile := { name := docName, pages := [wsOnly] }

/-- A PDF whose middle page extracts to the empty string. -/
def pdfGap : PdfFile := { name := docName, pages := [aPage, "", cPage] }

/-- The record the third page of `pdfGap` should produce. -/
def gapRecord : Document := { page_content := cPage, source := docName, page := 3 }

/-- A context chunk from page 1 of the manual. -/
def ctxDoc1 : Document := { page_content := "chunk one text", source := manualName, page := 1 }

/-- Another context chunk from the same page. -/
def ctxDoc2 : Document := { page_content := "chunk two text", source := manualName, page := 1 }

/-- Answer fragments streamed for the cited turn. -/
def citedFrags : List String := ["The ", "answer."]

/-- A chain whose stream completes with two context documents. -/
def chainCited : RagChain := fun _ _ => ChainOutcome.ok citedFrags [ctxDoc1, ctxDoc2]

/-- A ready session about to run the cited turn. -/
def citedState : AppState :=
  { conversation := some chainCited, chat_history := [Turn.system greeting] }

/-- Answer fragments for a plain successful turn. -/
def okFrags : List String := ["An answer."]

/-- A chain whose stream completes with no context documents. -/
def chainOk : RagChain := fun _ _ => ChainOutcome.ok okFrags []

/-- A ready session with `chainOk`. -/
def okState : AppState :=
  { conversation := some chainOk, chat_history := [Turn.system greeting] }

/-- Fragments emitted before a stream failure. -/
def partialFrags : List String := ["partial ", "output"]

/-- A chain whose stream raises after two fragments. -/
def chainFail : RagChain := fun _ _ => ChainOutcome.failed partialFrags

/-- A ready session with `chainFail`. -/
def failState : AppState :=
  { conversation := some chainFail, chat_history := [Turn.system greeting] }

/-- 501 letters `a`. -/
def strA : String := String.mk (List.replicate 501 'a')

/-- 501 letters `b`. -/
def strB : String := String.mk (List.replicate 501 'b')

/-- 501 letters `c`. -/
def strC : String := String.mk (List.replicate 501 'c')

/-- A page whose text is a single 1001-character line (no separator). -/
def docLong : Document :=
  { page_content := String.mk (List.replicate 1001 'z'), source := "long.pdf", page := 1 }

/-- A page of three 501-character lines: consecutive chunks share nothing. -/
def docThree : Document :=
  { page_content := strA ++ "\n" ++ strB ++ "\n" ++ strC, source := "three.pdf", page := 1 }

/-- A small split unit used in witnesses. -/
def abc : String := "abc"

/-! ### Helper lemmas -/

/-- Where a record of `extract_pdf_pages` comes from: position `i` of the page
list, with nonempty text, tagged page `k + i + 1`. -/
theorem mem_extract_pdf_pages (name : String) (r : Document) (pages : List String) :
    ∀ k : Nat, r ∈ extract_pdf_pages name pages k ↔
      ∃ i, pages[i]? = some r.page_content ∧ r.page_content ≠ "" ∧
        r.source = name ∧ r.page = k + i + 1 := by
  induction pages with
  | nil => intro k; simp [extract_pdf_pages]
  | cons text rest ih =>
    intro k
    constructor
    · intro h
      rcases List.mem_append.mp h with h1 | h2
      · by_cases ht : text = ""
        · simp [ht] at h1
        · simp [ht] at h1
          refine ⟨0, ?_, ?_, ?_, ?_⟩ <;> simp [h1, ht]
      · obtain ⟨i, hi, hne, hs, hp⟩ := (ih (k + 1)).mp h2
        exact ⟨i + 1, by simpa using hi, hne, hs, by omega⟩
    · rintro ⟨i, hi, hne, hs, hp⟩
      cases i with
      | zero =>
        simp at hi
        apply List.mem_append.mpr
        left
        have ht : text ≠ "" := by rw [hi]; exact hne
        have : r = { page_content := text, source := name, page := k + 1 } := by
          cases r; simp_all
        simp [ht, this]
      | succ i =>
        apply List.mem_append.mpr
        right
        exact (ih (k + 1)).mpr ⟨i, by simpa using hi, hne, hs, by omega⟩

/-- Appending on the right does not change a nonempty list's head. -/
theorem head_append_some {α : Type} (l m : List α) (a : α) (h : l.head? = some a) :
    (l ++ m).head? = some a := by
  cases l with
  | nil => simp at h
  | cons x xs => simpa using h

/-! ### Claims about the text extractor -/

/-- Claim C5 (amended): a page record appears in the extractor's output
exactly when some page of some uploaded file has that text at that position,
the text is nonempty (Python truthiness of `text`), and the record carries the
file's name and the 1-based page position.  In particular only pages whose
extracted text is the EMPTY string are skipped; whitespace-only pages are
kept. -/
theorem extractor_skips_exactly_empty_pages (pdfs : List PdfFile) (r : Document) :
    r ∈ get_pdf_text_and_metadata pdfs ↔
      ∃ pdf ∈ pdfs, ∃ i, pdf.pages[i]? = some r.page_content ∧
        r.page_content ≠ "" ∧ r.source = pdf.name ∧ r.page = i + 1 := by
  rw [get_pdf_text_and_metadata, List.mem_flatMap]
  constructor
  · rintro ⟨pdf, hpdf, hr⟩
    obtain ⟨i, hi, hne, hs, hp⟩ := (mem_extract_pdf_pages pdf.name r pdf.pages 0).mp hr
    exact ⟨pdf, hpdf, i, hi, hne, hs, by omega⟩
  · rintro ⟨pdf, hpdf, i, hi, hne, hs, hp⟩
    exact ⟨pdf, hpdf, (mem_extract_pdf_pages pdf.name r pdf.pages 0).mpr
      ⟨i, hi, hne, hs, by omega⟩⟩

/-- Claim C5, counterexample to the claim as stated: a whitespace-only
(nonempty) page is NOT skipped — `if text:` only filters the empty string —
so it contributes a page record, contrary to the claim. -/
theorem whitespace_page_not_skipped :
    get_pdf_text_and_metadata [wsPdf]
      = [{ page_content := wsOnly, source := docName, page := 1 }] ∧
    (wsOnly.data.all fun c => pyWhitespace c) = true ∧ wsOnly ≠ "" := by
  refine ⟨rfl, rfl, by decide⟩

/-- Claim C9: every extracted record's page number is its page's 1-based
position in the original document — position `page - 1` of the file's page
list holds exactly the record's text — so skipping empty pages leaves gaps in
the page numbers instead of renumbering. -/
theorem page_numbers_keep_positions (pdfs : List PdfFile) (r : Document)
    (h : r ∈ get_pdf_text_and_metadata pdfs) :
    ∃ pdf ∈ pdfs, r.source = pdf.name ∧ 1 ≤ r.page ∧
      pdf.pages[r.page - 1]? = some r.page_content := by
  obtain ⟨pdf, hpdf, i, hi, _hne, hs, hp⟩ :=
    (extractor_skips_exactly_empty_pages pdfs r).mp h
  refine ⟨pdf, hpdf, hs, by omega, ?_⟩
  have : r.page - 1 = i := by omega
  rw [this]; exact hi

/-- Witness for C9: the gapped PDF (pages `a`, empty, `c`) yields page numbers
1 and 3 — a gap, not a renumbering — and the theorem applies to its second
record. -/
theorem page_numbers_keep_positions_witness :
    gapRecord ∈ get_pdf_text_and_metadata [pdfGap] ∧
    ((get_pdf_text_and_metadata [pdfGap]).map fun r => r.page) = [1, 3] ∧
    (∃ pdf ∈ [pdfGap], gapRecord.source = pdf.name ∧ 1 ≤ gapRecord.page ∧
      pdf.pages[gapRecord.page - 1]? = some gapRecord.page_content) :=
  ⟨by decide, by decide, page_numbers_keep_positions [pdfGap] gapRecord (by decide)⟩

/-! ### Claims about the conversation state machine -/

/-- Claim C7: Clear Chat History always leaves exactly the single initial
`System` greeting turn, regardless of the prior state. -/
theorem clear_resets_to_single_system_turn (s : AppState) :
    (clearHistory s).chat_history = [Turn.system greeting] := rfl

/-- Claim C6: submitting a question with no conversation built performs no
retrieval and returns no silent empty result: the not-ready condition is
surfaced (the "process documents first" warning) and the conversation state is
unchanged. -/
theorem question_without_index_not_ready (s : AppState) (q : String)
    (h : s.conversation = none) :
    submitQuestion s q = (s, Outcome.notReady notReadyMessage) := by
  simp [submitQuestion, h]

/-- Witness for C6 at the initial state. -/
theorem question_without_index_not_ready_witness :
    initState.conversation = none ∧
    submitQuestion initState qWhat = (initState, Outcome.notReady notReadyMessage) :=
  ⟨rfl, question_without_index_not_ready initState qWhat rfl⟩

/-- Claim C2: if the answer stream fails after emitting any number of
fragments, the session is left exactly as it was — neither the `Human` turn
for the attempted question nor a partial `AI` turn is appended — and the
failure is surfaced. -/
theorem failed_stream_leaves_state_unchanged (s : AppState) (ch : RagChain)
    (q : String) (emitted : List String) (hc : s.conversation = some ch)
    (hs : ch s.chat_history q = ChainOutcome.failed emitted) :
    submitQuestion s q = (s, Outcome.generationError) := by
  simp [submitQuestion, hc, hs]

/-- Witness for C2: a stream failing after two fragments. -/
theorem failed_stream_leaves_state_unchanged_witness :
    failState.conversation = some chainFail ∧
    chainFail failState.chat_history qWhat = ChainOutcome.failed partialFrags ∧
    submitQuestion failState qWhat = (failState, Outcome.generationError) :=
  ⟨rfl, rfl, failed_stream_leaves_state_unchanged failState chainFail qWhat
    partialFrags rfl rfl⟩

/-- Claim C10: every reachable session's chat history starts with the initial
`System` greeting; a successful question appends exactly the `Human` turn and
the `AI` turn at the end, preserving everything before them; processing
documents never changes the chat history. -/
theorem conversation_log_invariants :
    (∀ s : AppState, Reachable s → s.chat_history.head? = some (Turn.system greeting)) ∧
    (∀ (s : AppState) (ch : RagChain) (q : String) (frags : List String)
        (ctx : List Document), s.conversation = some ch →
      ch s.chat_history q = ChainOutcome.ok frags ctx →
      (submitQuestion s q).1.chat_history
        = s.chat_history ++ [Turn.human q, Turn.ai (String.join frags) []]) ∧
    (∀ (ch : RagChain) (pdfs : List PdfFile) (s : AppState),
      (processDocs ch pdfs s).1.chat_history = s.chat_history) := by
  refine ⟨?_, ?_, ?_⟩
  · intro s h
    induction h with
    | init => rfl
    | process s ch pdfs h ih =>
      unfold processDocs
      by_cases hp : pdfs = [] <;> simp [hp] <;> exact ih
    | clear s h ih => rfl
    | submit s q h ih =>
      cases hc : s.conversation with
      | none => simp only [submitQuestion, hc]; exact ih
      | some ch =>
        cases ho : ch s.chat_history q with
        | ok frags ctx =>
          simp only [submitQuestion, hc, ho]
          exact head_append_some _ _ _ ih
        | failed e => simp only [submitQuestion, hc, ho]; exact ih
  · intro s ch q frags ctx hc ho
    simp [submitQuestion, hc, ho]
  · intro ch pdfs s
    unfold processDocs
    by_cases hp : pdfs = [] <;> simp [hp]

/-- Witness for C10: the initial state, one successful turn, and one
processing step. -/
theorem conversation_log_invariants_witness :
    initState.chat_history.head? = some (Turn.system greeting) ∧
    (submitQuestion okState qWhat).1.chat_history
      = okState.chat_history ++ [Turn.human qWhat, Turn.ai (String.join okFrags) []] ∧
    (processDocs chainOk [] initState).1.chat_history = initState.chat_history :=
  ⟨conversation_log_invariants.1 initState Reachable.init,
   conversation_log_invariants.2.1 okState chainOk qWhat okFrags [] rfl rfl,
   conversation_log_invariants.2.2 chainOk [] initState⟩

/-- Claim C1 (code bug): at a successful turn whose synthesis context is two
chunks of `manual.pdf` page 1, the code appends the `AI` turn with an EMPTY
source list (`("ai", response, [])`, app.py line 161), while the deduplicated
source set of the context is `[(manual.pdf, 1)]` — so the appended turn's
sources are not the deduplicated sources of the chunks passed to synthesis. -/
theorem ai_turn_sources_always_empty :
    (submitQuestion citedState qPage).1.chat_history
      = [Turn.system greeting, Turn.human qPage, Turn.ai (String.join citedFrags) []] ∧
    dedupSources [ctxDoc1, ctxDoc2] = [(manualName, 1)] ∧
    dedupSources [ctxDoc1, ctxDoc2] ≠ dedupSources [] := by
  refine ⟨rfl, by decide, by decide⟩

/-! ### Claims about the retrieval chain wiring -/

/-- Claim C3 (amended): the retrieval query equals the question unchanged with
no rewriting model call exactly when the chat history passed to the chain is
empty; with ANY nonempty history — including the app's initial history, which
is the single `System` greeting — the rewriting model is invoked and its
output is used as the query. -/
theorem rewrite_skipped_only_for_empty_history
    (f : List Turn → String → String) (q : String) (t : Turn) (hist : List Turn) :
    retrieval_query f [] q = (q, false) ∧
    retrieval_query f (t :: hist) q = (f (t :: hist) q, true) :=
  ⟨rfl, rfl⟩

/-- Claim C3, counterexample to the claim as stated: on the app's first turn
the history is `[System greeting]` — it contains no prior `Human`/`AI` turn —
yet the rewriting model IS called (the truthiness branch sees a nonempty
history) and the query is its output, not the question unchanged. -/
theorem first_turn_still_calls_rewriter :
    (initState.chat_history.all fun t => isSystemTurn t) = true ∧
    retrieval_query frew initState.chat_history qWhat = (rewrittenQ, true) ∧
    rewrittenQ ≠ qWhat := by
  refine ⟨rfl, rfl, by decide⟩

/-- Claim C8: the answering prompt's human message is the original user
question as submitted — the rewritten query reaches only the retriever, never
the synthesis prompt. -/
theorem synthesis_prompt_uses_original_question
    (fr : List Turn → String → String) (rt : String → List Document)
    (ans : List Msg → String) (hist : List Turn) (input : String) :
    humanTexts (create_retrieval_chain_run fr rt ans hist input).prompt = [input] := rfl

/-! ### Chunker invariants -/

/-- A string's length is a nonnegative integer. -/
theorem strLen_nonneg (s : String) : 0 ≤ strLen s := Int.natCast_nonneg _

/-- The separator contribution is nonnegative. -/
theorem sepLenOf_nonneg (l : List String) : 0 ≤ sepLenOf l := by
  unfold sepLenOf; split <;> norm_num

/-- The bookkeeping total is nonnegative. -/
theorem totalOf_nonneg (l : List String) : 0 ≤ totalOf l := by
  induction l with
  | nil => simp [totalOf]
  | cons d ds ih =>
    have h1 := strLen_nonneg d
    have h2 := sepLenOf_nonneg ds
    simp only [totalOf]
    omega

/-- A nonempty string has positive length. -/
theorem strLen_pos (s : String) (h : s ≠ "") : 0 < strLen s := by
  cases s with
  | mk l =>
    cases l with
    | nil => exact absurd rfl h
    | cons c cs =>
      have hl : (String.mk (c :: cs)).length = cs.length + 1 := rfl
      unfold strLen
      rw [hl]
      omega

/-- The total of a nonempty list of nonempty units is positive. -/
theorem totalOf_pos (l : List String) (hne : l ≠ []) (h : ∀ u ∈ l, u ≠ "") :
    0 < totalOf l := by
  cases l with
  | nil => exact absurd rfl hne
  | cons d ds =>
    have h1 := strLen_pos d (h d (List.mem_cons_self d ds))
    have h2 := sepLenOf_nonneg ds
    have h3 := totalOf_nonneg ds
    simp only [totalOf]
    omega

/-- How the total grows when a unit is appended at the end. -/
theorem totalOf_append_single (l : List String) (d : String) :
    totalOf (l ++ [d]) = totalOf l + sepLenOf l + strLen d := by
  induction l with
  | nil => simp [totalOf, sepLenOf]
  | cons x xs ih =>
    have h1 : sepLenOf (xs ++ [d]) = 1 := by simp [sepLenOf]
    have h2 : sepLenOf (x :: xs) = 1 := by simp [sepLenOf]
    have h3 : totalOf ((x :: xs) ++ [d])
        = strLen x + sepLenOf (xs ++ [d]) + totalOf (xs ++ [d]) := by
      rw [List.cons_append, totalOf]
    have h4 : totalOf (x :: xs) = strLen x + sepLenOf xs + totalOf xs := by
      rw [totalOf]
    omega

/-- The bookkeeping total is exactly the length of the separator-joined
current document. -/
theorem joinSep_length (l : List String) : strLen (joinSep "\n" l) = totalOf l := by
  induction l with
  | nil => rfl
  | cons d ds ih =>
    cases ds with
    | nil => simp [joinSep, totalOf, sepLenOf]
    | cons e es =>
      have h2 : sepLenOf (e :: es) = 1 := by simp [sepLenOf]
      have hone : ("\n" : String).length = 1 := rfl
      have hj : joinSep "\n" (d :: e :: es) = d ++ "\n" ++ joinSep "\n" (e :: es) := rfl
      have ht : totalOf (d :: e :: es)
          = strLen d + sepLenOf (e :: es) + totalOf (e :: es) := by
        rw [totalOf]
      have hlen : strLen (d ++ "\n" ++ joinSep "\n" (e :: es))
          = strLen d + 1 + strLen (joinSep "\n" (e :: es)) := by
        simp only [strLen]
        rw [String.length_append, String.length_append, hone]
        push_cast
        ring
      rw [hj, hlen, ih, ht, h2]

/-- Stripping never grows a character list. -/
theorem pyStripList_length_le (cs : List Char) : (pyStripList cs).length ≤ cs.length := by
  unfold pyStripList
  rw [List.length_reverse]
  calc ((cs.dropWhile pyWhitespace).reverse.dropWhile pyWhitespace).length
      ≤ (cs.dropWhile pyWhitespace).reverse.length :=
        (List.dropWhile_sublist _).length_le
    _ = (cs.dropWhile pyWhitespace).length := List.length_reverse _
    _ ≤ cs.length := (List.dropWhile_sublist _).length_le

/-- Stripping keeps only characters of the original list. -/
theorem pyStripList_subset (cs : List Char) : pyStripList cs ⊆ cs := by
  intro c hc
  unfold pyStripList at hc
  rw [List.mem_reverse] at hc
  have h1 := (List.dropWhile_sublist (l := (cs.dropWhile pyWhitespace).reverse)
    pyWhitespace).subset hc
  rw [List.mem_reverse] at h1
  exact (List.dropWhile_sublist pyWhitespace).subset h1

/-- `pyStrip` never grows a string. -/
theorem pyStrip_strLen_le (s : String) : strLen (pyStrip s) ≤ strLen s := by
  unfold pyStrip strLen
  have h1 : (String.mk (pyStripList s.data)).length = (pyStripList s.data).length := rfl
  have h2 : s.data.length = s.length := by cases s; rfl
  have h3 := pyStripList_length_le s.data
  rw [h1]
  omega

/-- Characters of a stripped string come from the original string. -/
theorem mem_data_pyStrip (s : String) (c : Char) (h : c ∈ (pyStrip s).data) :
    c ∈ s.data := by
  have hd : (pyStrip s).data = pyStripList s.data := rfl
  rw [hd] at h
  exact pyStripList_subset s.data h

/-- No piece produced by splitting on `sep` contains `sep`. -/
theorem splitCharList_no_sep (sep : Char) (cs : List Char) :
    ∀ g ∈ splitCharList sep cs, sep ∉ g := by
  induction cs with
  | nil =>
    intro g hg
    have : g = [] := by simpa [splitCharList] using hg
    subst this; simp
  | cons c cs ih =>
    intro g hg
    by_cases hc : c = sep
    · simp only [splitCharList, if_pos hc] at hg
      rcases List.mem_cons.mp hg with h | h
      · subst h; simp
      · exact ih g h
    · simp only [splitCharList, if_neg hc] at hg
      rcases List.mem_cons.mp hg with h | h
      · subst h
        intro hmem
        rcases List.mem_cons.mp hmem with h2 | h2
        · exact hc h2.symm
        · cases hs : splitCharList sep cs with
          | nil => rw [hs] at h2; simp at h2
          | cons g0 gs =>
            rw [hs] at h2
            simp at h2
            exact ih g0 (by rw [hs]; exact List.mem_cons_self g0 gs) h2
      · cases hs : splitCharList sep cs with
        | nil => rw [hs] at h; simp at h
        | cons g0 gs =>
          rw [hs] at h
          simp at h
          exact ih g (by rw [hs]; exact List.mem_cons_of_mem g0 h)

/-- The split units fed to the merge loop are nonempty and separator-free. -/
theorem split_units_ok (text : String) :
    ∀ u ∈ ((splitCharList nl text.data).map (fun cs => String.mk cs)).filter
      (fun s => s ≠ ""), u ≠ "" ∧ nl ∉ u.data := by
  intro u hu
  rw [List.mem_filter] at hu
  obtain ⟨hmem, hne⟩ := hu
  obtain ⟨g, hg, rfl⟩ := List.mem_map.mp hmem
  refine ⟨by simpa using hne, ?_⟩
  have hd : (String.mk g).data = g := rfl
  rw [hd]
  exact splitCharList_no_sep nl text.data g hg

/-- Specification of the pop loop: it preserves the length accounting, leaves
at most `chunk_overlap` carried characters, exits only when the next split
fits (or nothing is left to pop), and keeps only units of the input. -/
theorem popSplits_spec (dLen : Int) (cur : List String) :
    ∀ total : Int, total = totalOf cur →
      (popSplits dLen cur total).2 = totalOf (popSplits dLen cur total).1 ∧
      totalOf (popSplits dLen cur total).1 ≤ chunk_overlap ∧
      ((popSplits dLen cur total).1 = [] ∨
        (popSplits dLen cur total).2 + dLen + sepLenOf (popSplits dLen cur total).1
          ≤ chunk_size ∨
        (popSplits dLen cur total).2 ≤ 0) ∧
      ∀ u ∈ (popSplits dLen cur total).1, u ∈ cur := by
  induction cur with
  | nil =>
    intro total htot
    refine ⟨?_, ?_, ?_, ?_⟩ <;>
      norm_num [popSplits, totalOf, chunk_overlap, htot]
  | cons d0 rest ih =>
    intro total htot
    by_cases hcond : chunk_overlap < total ∨
        (chunk_size < total + dLen + sepLenOf (d0 :: rest) ∧ 0 < total)
    · have heq : popSplits dLen (d0 :: rest) total
          = popSplits dLen rest (total - (strLen d0 + sepLenOf rest)) := by
        simp only [popSplits]
        rw [if_pos hcond]
      have hacc : total - (strLen d0 + sepLenOf rest) = totalOf rest := by
        simp only [totalOf] at htot
        omega
      obtain ⟨h1, h2, h3, h4⟩ := ih (total - (strLen d0 + sepLenOf rest)) hacc
      rw [heq]
      exact ⟨h1, h2, h3, fun u hu => List.mem_cons_of_mem d0 (h4 u hu)⟩
    · have heq : popSplits dLen (d0 :: rest) total = (d0 :: rest, total) := by
        simp only [popSplits]
        rw [if_neg hcond]
      push_neg at hcond
      obtain ⟨hc1, hc2⟩ := hcond
      rw [heq]
      refine ⟨htot, ?_, ?_, fun u hu => hu⟩
      · rw [← htot]; exact hc1
      · by_cases hb : chunk_size < total + dLen + sepLenOf (d0 :: rest)
        · exact Or.inr (Or.inr (hc2 hb))
        · exact Or.inr (Or.inl (le_of_not_lt hb))

/-- An emitted chunk is within bounds: at most `chunk_size` characters when
the current document was within bounds, and separator-free when the current
document was a single (oversized) unit. -/
theorem joinDocs_ok (cur : List String) (hnl : ∀ u ∈ cur, nl ∉ u.data)
    (hsz : totalOf cur ≤ chunk_size ∨ ∃ u, cur = [u]) (doc : String)
    (hj : joinDocs cur = some doc) :
    strLen doc ≤ chunk_size ∨ nl ∉ doc.data := by
  by_cases he : pyStrip (joinSep "\n" cur) = ""
  · rw [joinDocs, if_pos he] at hj
    exact absurd hj (by simp)
  · rw [joinDocs, if_neg he] at hj
    injection hj with hdoc
    rcases hsz with hty | ⟨u, rfl⟩
    · left
      calc strLen doc = strLen (pyStrip (joinSep "\n" cur)) := by rw [hdoc]
        _ ≤ strLen (joinSep "\n" cur) := pyStrip_strLen_le _
        _ = totalOf cur := joinSep_length cur
        _ ≤ chunk_size := hty
    · right
      have hju : joinSep "\n" [u] = u := rfl
      intro hcontra
      rw [← hdoc, hju] at hcontra
      exact hnl u (by simp) (mem_data_pyStrip u nl hcontra)

/-- Invariant of the merge loop: every produced chunk either fits in
`chunk_size` or is a single separator-free split unit. -/
theorem mergeGo_chunkOk (ds : List String) :
    ∀ (docs current : List String) (total : Int),
      total = totalOf current →
      (totalOf current ≤ chunk_size ∨ ∃ u, current = [u]) →
      (∀ u ∈ current, u ≠ "" ∧ nl ∉ u.data) →
      (∀ u ∈ ds, u ≠ "" ∧ nl ∉ u.data) →
      (∀ c ∈ docs, strLen c ≤ chunk_size ∨ nl ∉ c.data) →
      ∀ c ∈ mergeGo ds docs current total, strLen c ≤ chunk_size ∨ nl ∉ c.data := by
  induction ds with
  | nil =>
    intro docs current total htot hsz hcur hds hdocs c hc
    simp only [mergeGo] at hc
    cases hj : joinDocs current with
    | none => rw [hj] at hc; exact hdocs c hc
    | some doc =>
      rw [hj] at hc
      rcases List.mem_append.mp hc with h | h
      · exact hdocs c h
      · have hcd : c = doc := by simpa using h
        subst hcd
        exact joinDocs_ok current (fun u hu => (hcur u hu).2) hsz c hj
  | cons d ds ih =>
    intro docs current total htot hsz hcur hds hdocs c hc
    have hdsd := hds d (List.mem_cons_self d ds)
    have hds' : ∀ u ∈ ds, u ≠ "" ∧ nl ∉ u.data :=
      fun u hu => hds u (List.mem_cons_of_mem d hu)
    simp only [mergeGo] at hc
    by_cases hb : chunk_size < total + strLen d + sepLenOf current
    · rw [if_pos hb] at hc
      by_cases hemp : current = []
      · rw [if_pos hemp] at hc
        subst hemp
        refine ih docs [d] (total + strLen d) ?_ (Or.inr ⟨d, rfl⟩) ?_ hds' hdocs c hc
        · have h0 : total = 0 := by simpa [totalOf] using htot
          simp [totalOf, sepLenOf, h0]
        · intro u hu
          have : u = d := by simpa using hu
          subst this; exact hdsd
      · rw [if_neg hemp] at hc
        obtain ⟨h1, h2, h3, h4⟩ := popSplits_spec (strLen d) current total htot
        have hdocs2 : ∀ x ∈ (match joinDocs current with
            | some doc => docs ++ [doc]
            | none => docs), strLen x ≤ chunk_size ∨ nl ∉ x.data := by
          cases hj : joinDocs current with
          | none => simpa using hdocs
          | some doc =>
            intro x hx
            simp only at hx
            rcases List.mem_append.mp hx with hx | hx
            · exact hdocs x hx
            · have hxd : x = doc := by simpa using hx
              subst hxd
              exact joinDocs_ok current (fun u hu => (hcur u hu).2) hsz x hj
        refine ih _ ((popSplits (strLen d) current total).1 ++ [d]) _ ?_ ?_ ?_ hds'
          hdocs2 c hc
        · rw [totalOf_append_single]
          omega
        · rcases h3 with hnil | hle | hz
          · exact Or.inr ⟨d, by rw [hnil]; rfl⟩
          · left; rw [totalOf_append_single]; omega
          · by_cases hpn : (popSplits (strLen d) current total).1 = []
            · exact Or.inr ⟨d, by rw [hpn]; rfl⟩
            · exfalso
              have hpos := totalOf_pos (popSplits (strLen d) current total).1 hpn
                (fun u hu => (hcur u (h4 u hu)).1)
              omega
        · intro u hu
          rcases List.mem_append.mp hu with hu | hu
          · exact hcur u (h4 u hu)
          · have : u = d := by simpa using hu
            subst this; exact hdsd
    · rw [if_neg hb] at hc
      refine ih docs (current ++ [d]) _ ?_ ?_ ?_ hds' hdocs c hc
      · rw [totalOf_append_single]; omega
      · left; rw [totalOf_append_single]; omega
      · intro u hu
        rcases List.mem_append.mp hu with hu | hu
        · exact hcur u hu
        · have : u = d := by simpa using hu
          subst this; exact hdsd

/-- Every chunk of `split_text` either fits in `chunk_size` or is a single
separator-free unit. -/
theorem split_text_chunkOk (text : String) (c : String) (hc : c ∈ split_text text) :
    strLen c ≤ chunk_size ∨ nl ∉ c.data := by
  refine mergeGo_chunkOk _ [] [] 0 rfl ?_ (by simp) (split_units_ok text) (by simp) c hc
  left
  norm_num [totalOf, chunk_size]

/-- Claim C4 (amended): no chunk's text exceeds `chunk_size` (1000) UNLESS it
is a single separator-free split unit (its text contains no newline) — a page
line longer than 1000 characters becomes an oversized chunk of its own; and
the overlap carried back between consecutive chunks of a page is AT MOST
`chunk_overlap` (200) characters (whole split units only), not exactly 200:
whenever the pop loop of the merge runs with a consistent total, the carried
units it leaves total at most 200 characters. -/
theorem chunk_size_and_overlap_bounds (docs : List Document) (dLen : Int)
    (cur : List String) (tot : Int) (hacc : tot = totalOf cur) :
    (∀ c ∈ get_text_chunks docs,
      strLen c.page_content ≤ chunk_size ∨ nl ∉ c.page_content.data) ∧
    totalOf (popSplits dLen cur tot).1 ≤ chunk_overlap := by
  constructor
  · intro c hc
    rw [get_text_chunks, List.mem_flatMap] at hc
    obtain ⟨doc, _hdoc, hc⟩ := hc
    obtain ⟨ch, hch, rfl⟩ := List.mem_map.mp hc
    exact split_text_chunkOk doc.page_content ch hch
  · exact (popSplits_spec dLen cur tot hacc).2.1

set_option maxRecDepth 20000 in
/-- Witness for C4 (amended), at a concrete document and pop-loop state. -/
theorem chunk_size_and_overlap_bounds_witness :
    ((3 : Int) = totalOf [abc]) ∧
    ((∀ c ∈ get_text_chunks [docLong],
        strLen c.page_content ≤ chunk_size ∨ nl ∉ c.page_content.data) ∧
      totalOf (popSplits 5 [abc] 3).1 ≤ chunk_overlap) :=
  ⟨by decide, chunk_size_and_overlap_bounds [docLong] 5 [abc] 3 (by decide)⟩

set_option maxRecDepth 100000 in
/-- Claim C4, counterexample to the claim as stated: a 1001-character page
with no separator yields a single chunk of 1001 > 1000 characters, and the
three-line page `docThree` yields three consecutive chunks from the same page
whose overlap region is empty — the trailing 200 characters of the first
chunk differ from the leading 200 characters of the second (non-final)
chunk — not the claimed exactly-200-character overlap. -/
theorem oversized_chunk_and_zero_overlap :
    ((get_text_chunks [docLong]).map fun c => c.page_content.length) = [1001] ∧
    ((get_text_chunks [docThree]).map fun c => c.page_content) = [strA, strB, strC] ∧
    ¬ (strA.data.drop 301 = strB.data.take 200) := by
  refine ⟨by decide, by decide, by decide⟩

end IntelliDoc
